import Mathlib

/-!
# Expense tracker (`expense_tracker.go`)

A shallow embedding of the in-memory store of the expense tracker and of the
operations on it: `AddExpense`, `ListExpenses`, `DeleteExpense`,
`GetExpensesByCategory`, `truncateString` and the "add" branch of the menu in
`main`.

Conventions of the embedding.

* A Go `string` is its sequence of bytes; `len` counts bytes and `s[:n]` keeps
  the first `n` bytes.  Text is a list of characters and `utf8` gives its bytes.
* A Go `int` is a 64-bit two's complement integer: values are `Int`s and `++`
  wraps around (`wrapInt`).
* A `float64` is its IEEE-754 bit pattern.  Comparison with zero is decoded from
  the bit pattern.  The operations that add amounts take the addition as the
  argument `fadd`; the addition of the language is `Float64.add` (round to
  nearest, ties to even).
* The library calls of `getUserInput` and `main` (`bufio.Scanner` on
  `os.Stdin`, `strings.TrimSpace`, `strconv.ParseFloat`) are arguments of the
  functions that make them.
* `time.Now()` is an input of `AddExpense` (`now`).
* What the program prints is a list of `Out` events, one per `fmt.Print*` call,
  carrying the arguments handed to the formatter.
* `saveToFile` only reads the tracker and its result is dropped by its callers,
  so it does not appear in the in-memory transitions.
-/

namespace ExpenseCLI

/-! ## Go values -/

/-- A Go string, as the list of its bytes. -/
abbrev GoString := List UInt8

/-- Largest value of a Go `int` (64-bit). -/
def maxInt : Int := 2 ^ 63 - 1

/-- Smallest value of a Go `int` (64-bit). -/
def minInt : Int := -(2 ^ 63)

/-- Reduction of a mathematical integer to the 64-bit two's complement range,
which is what Go's `int` arithmetic computes on overflow. -/
def wrapInt (x : Int) : Int := (x + 2 ^ 63) % 2 ^ 64 - 2 ^ 63

/-- A `float64`, given by its 64-bit IEEE-754 pattern. -/
structure Float64 where
  bits : Nat
deriving DecidableEq, Repr

namespace Float64

/-- The constant `0.0` (also the zero value of the type). -/
def zero : Float64 := ⟨0⟩

/-- Not-a-number: exponent field all ones and a non-zero fraction. -/
def isNaN (x : Float64) : Bool :=
  decide ((x.bits / 2 ^ 52) % 2 ^ 11 = 2047) && decide (x.bits % 2 ^ 52 ≠ 0)

/-- The Go comparison `x <= 0`: false for NaN, otherwise true exactly when the
sign bit is set or the magnitude is zero. -/
def leZero (x : Float64) : Bool :=
  !x.isNaN && (decide ((x.bits / 2 ^ 63) % 2 = 1) || decide (x.bits % 2 ^ 63 = 0))

/-- The Go comparison `x > 0`: false for NaN, otherwise true exactly when the
sign bit is clear and the magnitude is not zero. -/
def gtZero (x : Float64) : Bool :=
  !x.isNaN && decide ((x.bits / 2 ^ 63) % 2 = 0) && decide (x.bits % 2 ^ 63 ≠ 0)

/-- The sign bit is set. -/
def isNeg (x : Float64) : Bool := decide ((x.bits / 2 ^ 63) % 2 = 1)

/-- An infinity: exponent field all ones and a zero fraction. -/
def isInf (x : Float64) : Bool :=
  decide ((x.bits / 2 ^ 52) % 2 ^ 11 = 2047) && decide (x.bits % 2 ^ 52 = 0)

/-- The quiet NaN returned for an invalid or NaN operand (its sign and payload
depend on the processor; the pattern `0x7ff8000000000000` stands for it). -/
def nan : Float64 := ⟨0x7ff8000000000000⟩

/-- Absolute value of a finite `float64` as a multiple of `2^-1074`: the
fraction for a subnormal (exponent field 0), otherwise
`(2^52 + fraction) * 2^(exponent - 1)`. -/
def magnitude (x : Float64) : Nat :=
  if (x.bits / 2 ^ 52) % 2 ^ 11 = 0 then x.bits % 2 ^ 52
  else (2 ^ 52 + x.bits % 2 ^ 52) * 2 ^ ((x.bits / 2 ^ 52) % 2 ^ 11 - 1)

/-- Value of a finite `float64` as a signed multiple of `2^-1074`. -/
def units (x : Float64) : Int :=
  if x.isNeg then -(x.magnitude : Int) else (x.magnitude : Int)

/-- Binary search for the position of the highest set bit: with `acc = 0` and
`i = 12`, the largest `n < 4096` with `2^n ≤ m`. -/
def log2Aux (m : Nat) : Nat → Nat → Nat
  | 0, acc => acc
  | i + 1, acc =>
    if 2 ^ (acc + 2 ^ i) ≤ m then log2Aux m i (acc + 2 ^ i) else log2Aux m i acc

/-- Bit pattern (without sign) of the `float64` nearest to `m * 2^-1074`, ties
to the even significand; the pattern of infinity on overflow.  Below `2^53` the
value is exact and is its own pattern; above, the 53 leading bits are kept and
rounded on the rest. -/
def roundMagnitude (m : Nat) : Nat :=
  if m < 2 ^ 53 then m
  else
    let shift := log2Aux m 12 0 - 52
    let q := m / 2 ^ shift
    let r := m % 2 ^ shift
    let half := 2 ^ (shift - 1)
    let q' := if half < r ∨ (r = half ∧ q % 2 = 1) then q + 1 else q
    let b := (shift + 1) * 2 ^ 52 + (q' - 2 ^ 52)
    if 2047 * 2 ^ 52 ≤ b then 2047 * 2 ^ 52 else b

/-- The Go operation `x + y` on `float64`: IEEE-754 addition, round to nearest,
ties to even. -/
def add (x y : Float64) : Float64 :=
  if x.isNaN || y.isNaN then nan
  else if x.isInf then (if y.isInf && (x.isNeg != y.isNeg) then nan else x)
  else if y.isInf then y
  else
    let k := x.units + y.units
    if k = 0 then (if x.isNeg && y.isNeg then ⟨2 ^ 63⟩ else ⟨0⟩)
    else if k < 0 then ⟨2 ^ 63 + roundMagnitude k.natAbs⟩
    else ⟨roundMagnitude k.natAbs⟩

end Float64

/-- The bytes of a text: the UTF-8 encoding of its characters, one after the
other. -/
def utf8 (cs : List Char) : GoString := cs.flatMap String.utf8EncodeChar

/-- A `time.Time` value.  The program only stores it and hands it to
`Format`. -/
structure Time where
  nanos : Int
deriving DecidableEq, Repr

/-! ## Data model -/

/-- The `Expense` struct. -/
structure Expense where
  ID : Int
  Description : GoString
  Amount : Float64
  Category : GoString
  Date : Time
deriving DecidableEq, Repr

/-- The `ExpenseTracker` struct. -/
structure ExpenseTracker where
  Expenses : List Expense
  NextID : Int
  filename : GoString
deriving DecidableEq, Repr

/-- One call of `fmt.Println` / `fmt.Printf`, with the values it formats. -/
inductive Out where
  /-- Line `"No expenses recorded yet."` -/
  | noExpenses
  /-- Line `"Your Expenses:"` -/
  | listTitle
  /-- The column names of the table. -/
  | listHeader
  /-- The rule under the column names. -/
  | listRule
  /-- A table row: ID, `Date.Format("2006-01-02")`, category, truncated
  description, amount (`%.2f`). -/
  | row (id : Int) (date : Time) (category : GoString) (description : GoString)
      (amount : Float64)
  /-- Line `"Total: $%.2f"` -/
  | total (t : Float64)
  /-- Line `"Added expense: $%.2f for %s"` -/
  | added (amount : Float64) (description : GoString)
  /-- Line `"Deleted expense: %s"` -/
  | deleted (description : GoString)
  /-- Line `"Expense with ID %d not found"` -/
  | notFound (id : Int)
  /-- Line `"Expenses by Category:"` -/
  | categoryTitle
  /-- Line `"%-15s: $%.2f"` -/
  | categoryLine (category : GoString) (t : Float64)
  /-- Line `"Description cannot be empty"` -/
  | descriptionEmpty
  /-- Line `"Please enter a valid amount"` -/
  | invalidAmount
  /-- The prompt printed by `getUserInput`. -/
  | prompt (text : GoString)
deriving DecidableEq, Repr

/-! ## Construction and loading -/

/-- Function `loadFromFile`: when the file cannot be read (`file = none`) the tracker is
left as it is; otherwise `json.Unmarshal` (here `unmarshal`) decodes into it. -/
def loadFromFile (unmarshal : GoString → ExpenseTracker → ExpenseTracker)
    (file : Option GoString) (et : ExpenseTracker) : ExpenseTracker :=
  match file with
  | none => et
  | some data => unmarshal data et

/-- Function `NewExpenseTracker`: an empty tracker with `NextID = 1`, then
`loadFromFile`. -/
def NewExpenseTracker (unmarshal : GoString → ExpenseTracker → ExpenseTracker)
    (file : Option GoString) (filename : GoString) : ExpenseTracker :=
  loadFromFile unmarshal file { Expenses := [], NextID := 1, filename := filename }

/-! ## Operations -/

/-- Function `AddExpense`: builds the record with `ID = NextID` and `Date = now`,
appends it, increments `NextID` (Go `++`), prints the confirmation. -/
def AddExpense (et : ExpenseTracker) (description : GoString) (amount : Float64)
    (category : GoString) (now : Time) : ExpenseTracker × List Out :=
  let expense : Expense :=
    { ID := et.NextID, Description := description, Amount := amount,
      Category := category, Date := now }
  ({ et with Expenses := et.Expenses ++ [expense], NextID := wrapInt (et.NextID + 1) },
   [Out.added amount description])

/-- The string `"..."`. -/
def dots : GoString := [46, 46, 46]

/-- Function `truncateString`: `s` itself when `len(s) <= length`, otherwise
`s[:length-3] + "..."`.  The slice expression panics on a negative bound, which
is the result `none`. -/
def truncateString (s : GoString) (length : Int) : Option GoString :=
  if (s.length : Int) ≤ length then some s
  else if length - 3 < 0 then none
  else some (s.take (length - 3).toNat ++ dots)

/-- The loop of `ListExpenses`: for each record, in list order, prints the row
(with the description passed through `truncateString _ 24`) and adds the amount
to `total`.  The state is the output so far and `total`. -/
def listLoop (fadd : Float64 → Float64 → Float64) :
    List Expense → List Out × Float64 → Option (List Out × Float64)
  | [], acc => some acc
  | expense :: rest, acc =>
    match truncateString expense.Description 24 with
    | none => none
    | some d =>
      listLoop fadd rest
        (acc.1 ++ [Out.row expense.ID expense.Date expense.Category d expense.Amount],
         fadd acc.2 expense.Amount)

/-- Function `ListExpenses`: the notice for an empty list; otherwise the three heading
lines, the loop over the records starting from `total := 0.0`, then the total.
The result is `none` if the call panics. -/
def ListExpenses (fadd : Float64 → Float64 → Float64) (et : ExpenseTracker) :
    Option (ExpenseTracker × List Out) :=
  if et.Expenses.length = 0 then some (et, [Out.noExpenses])
  else
    match listLoop fadd et.Expenses
        ([Out.listTitle, Out.listHeader, Out.listRule], Float64.zero) with
    | none => none
    | some (out, total) => some (et, out ++ [Out.total total])

/-- The loop of `DeleteExpense`: index and value of the first record, from
position `i` on, whose ID is `id`. -/
def deleteScan (id : Int) : Nat → List Expense → Option (Nat × Expense)
  | _, [] => none
  | i, expense :: rest =>
    if expense.ID = id then some (i, expense) else deleteScan id (i + 1) rest

/-- Function `DeleteExpense`: at the first record with the given ID, replaces the list
by `append(Expenses[:i], Expenses[i+1:]...)` and reports the description; when
the loop finds none, reports "not found". -/
def DeleteExpense (et : ExpenseTracker) (id : Int) : ExpenseTracker × List Out :=
  match deleteScan id 0 et.Expenses with
  | some (i, expense) =>
    ({ et with Expenses := et.Expenses.take i ++ et.Expenses.drop (i + 1) },
     [Out.deleted expense.Description])
  | none => (et, [Out.notFound id])

/-- The statement `categoryTotals[k] += v` on a map kept as an association
list; a key not yet present reads as `0.0`. -/
def addToCategory (fadd : Float64 → Float64 → Float64) (k : GoString) (v : Float64) :
    List (GoString × Float64) → List (GoString × Float64)
  | [] => [(k, fadd Float64.zero v)]
  | (k', t) :: rest =>
    if k' = k then (k', fadd t v) :: rest else (k', t) :: addToCategory fadd k v rest

/-- Function `GetExpensesByCategory`: the notice for an empty list; otherwise the
totals per category and one line for each entry of the map.  Go ranges over a
map in an order chosen by the runtime, given here by `order`. -/
def GetExpensesByCategory (fadd : Float64 → Float64 → Float64)
    (order : List (GoString × Float64) → List (GoString × Float64))
    (et : ExpenseTracker) : ExpenseTracker × List Out :=
  if et.Expenses.length = 0 then (et, [Out.noExpenses])
  else
    let categoryTotals := et.Expenses.foldl
      (fun m expense => addToCategory fadd expense.Category expense.Amount m) []
    (et, Out.categoryTitle
          :: (order categoryTotals).map (fun kv => Out.categoryLine kv.1 kv.2))

/-! ## The menu's "add" branch -/

/-- Function `getUserInput`: prints the prompt, reads standard input through
a new `bufio.Scanner` and returns the text of its first token through
`strings.TrimSpace`.  `scan` is `bufio.NewScanner(os.Stdin)`, `Scan()`,
`Text()`: from a state of standard input it gives the text and the state the
scanner leaves behind (what it has read ahead is gone with it).  Returns the
input, the output and the state of standard input. -/
def getUserInput {σ : Type} (scan : σ → GoString × σ) (trimSpace : GoString → GoString)
    (prompt : GoString) (stdin : σ) : GoString × List Out × σ :=
  let r := scan stdin
  (trimSpace r.1, [Out.prompt prompt], r.2)

/-- The string `"Other"`. -/
def other : GoString := [79, 116, 104, 101, 114]

/-- The string `"Enter description: "`. -/
def promptDescription : GoString :=
  [69, 110, 116, 101, 114, 32, 100, 101, 115, 99, 114, 105, 112, 116, 105, 111, 110, 58,
   32]

/-- The string `"Enter amount: $"`. -/
def promptAmount : GoString :=
  [69, 110, 116, 101, 114, 32, 97, 109, 111, 117, 110, 116, 58, 32, 36]

/-- The string `"Enter category (e.g., Food, Transport, Entertainment): "`. -/
def promptCategory : GoString :=
  [69, 110, 116, 101, 114, 32, 99, 97, 116, 101, 103, 111, 114, 121, 32, 40, 101, 46,
   103, 46, 44, 32, 70, 111, 111, 100, 44, 32, 84, 114, 97, 110, 115, 112, 111, 114,
   116, 44, 32, 69, 110, 116, 101, 114, 116, 97, 105, 110, 109, 101, 110, 116, 41, 58,
   32]

/-- Branch `case "1"` of the menu loop in `main`.  `parseFloat` is
`strconv.ParseFloat(_, 64)`, with `none` for a non-nil error; `scan` and
`trimSpace` are those of `getUserInput`.  Returns the tracker, the output and
the state of standard input. -/
def mainAdd {σ : Type} (scan : σ → GoString × σ) (trimSpace : GoString → GoString)
    (parseFloat : GoString → Option Float64) (now : Time)
    (et : ExpenseTracker) (stdin : σ) : ExpenseTracker × List Out × σ :=
  let d := getUserInput scan trimSpace promptDescription stdin
  if d.1 = [] then (et, d.2.1 ++ [Out.descriptionEmpty], d.2.2)
  else
    let a := getUserInput scan trimSpace promptAmount d.2.2
    match parseFloat a.1 with
    | none => (et, d.2.1 ++ a.2.1 ++ [Out.invalidAmount], a.2.2)
    | some amount =>
      if amount.leZero then (et, d.2.1 ++ a.2.1 ++ [Out.invalidAmount], a.2.2)
      else
        let c := getUserInput scan trimSpace promptCategory a.2.2
        let category := if c.1 = [] then other else c.1
        let r := AddExpense et d.1 amount category now
        (r.1, d.2.1 ++ a.2.1 ++ c.2.1 ++ r.2, c.2.2)

/-! ## Sequences of calls -/

/-- A call of `AddExpense` (with the clock reading it sees) or of
`DeleteExpense`. -/
inductive Op where
  | add (description : GoString) (amount : Float64) (category : GoString) (now : Time)
  | delete (id : Int)
deriving DecidableEq, Repr

/-- The tracker after one call. -/
def step (et : ExpenseTracker) : Op → ExpenseTracker
  | Op.add d a c t => (AddExpense et d a c t).1
  | Op.delete id => (DeleteExpense et id).1

/-- The tracker after a sequence of calls. -/
def run (et : ExpenseTracker) (ops : List Op) : ExpenseTracker :=
  ops.foldl step et

/-- Number of `AddExpense` calls in a sequence. -/
def countAdds : List Op → Nat
  | [] => 0
  | Op.add _ _ _ _ :: ops => countAdds ops + 1
  | Op.delete _ :: ops => countAdds ops

/-- The IDs of the records created by the successive `AddExpense` calls of a
sequence: after each such call, the ID of the record at the end of the list. -/
def createdIDs : ExpenseTracker → List Op → List Int
  | _, [] => []
  | et, Op.add d a c t :: ops =>
    let et' := (AddExpense et d a c t).1
    (et'.Expenses.getLast?.map Expense.ID).toList ++ createdIDs et' ops
  | et, Op.delete id :: ops => createdIDs (DeleteExpense et id).1 ops

/-- The store invariant: record IDs pairwise distinct, and `NextID` above all
of them. -/
def Inv (et : ExpenseTracker) : Prop :=
  (et.Expenses.map Expense.ID).Nodup ∧ ∀ e ∈ et.Expenses, e.ID < et.NextID

/-- The description column of the table as the specification words it: the
description itself when it has at most 24 bytes, otherwise its first 21 bytes
followed by `"..."`. -/
def shownDescription (s : GoString) : GoString :=
  if s.length ≤ 24 then s else s.take 21 ++ dots

/-- The table row of a record as the specification words it. -/
def tableRow (e : Expense) : Out :=
  Out.row e.ID e.Date e.Category (shownDescription e.Description) e.Amount

instance (et : ExpenseTracker) : Decidable (Inv et) := by
  unfold Inv
  infer_instance

/-- The sum of the amounts of all records, as the specification words it:
the amounts added up from `0.0` in list order with the program's `float64`
addition. -/
def sumAmounts (fadd : Float64 → Float64 → Float64) (es : List Expense) : Float64 :=
  (es.map Expense.Amount).foldl fadd Float64.zero

/-- The map `categoryTotals` at the end of the loop of
`GetExpensesByCategory`. -/
def categoryTotals (fadd : Float64 → Float64 → Float64) (es : List Expense) :
    List (GoString × Float64) :=
  es.foldl (fun m expense => addToCategory fadd expense.Category expense.Amount m) []

/-- The map read `categoryTotals[c]`, with `none` for a key that is not
present. -/
def lookupTotal (c : GoString) : List (GoString × Float64) → Option Float64
  | [] => none
  | (k, t) :: rest => if k = c then some t else lookupTotal c rest

/-- The totals carried by the category lines of an output, in the order in
which they are printed. -/
def printedTotals : List Out → List Float64
  | [] => []
  | Out.categoryLine _ t :: rest => t :: printedTotals rest
  | _ :: rest => printedTotals rest

/-- The sum of the per-category totals of an output, as the specification
words it: the printed totals added up from `0.0` in the order printed. -/
def sumTotals (fadd : Float64 → Float64 → Float64) (out : List Out) : Float64 :=
  (printedTotals out).foldl fadd Float64.zero

/-! ## Sample data -/

/-- The string `"Coffee"`. -/
def coffee : GoString := [67, 111, 102, 102, 101, 101]

/-- The string `"Bus"`. -/
def bus : GoString := [66, 117, 115]

/-- The string `"Food"`. -/
def food : GoString := [70, 111, 111, 100]

/-- The string `"Transport"`. -/
def transport : GoString := [84, 114, 97, 110, 115, 112, 111, 114, 116]

/-- The value `4.5`. -/
def f4_5 : Float64 := ⟨0x4012000000000000⟩

/-- The value `2.0`. -/
def f2 : Float64 := ⟨0x4000000000000000⟩

/-- The value `-1.0`. -/
def fNeg1 : Float64 := ⟨0xbff0000000000000⟩

/-- The value `1.0`. -/
def f1 : Float64 := ⟨0x3ff0000000000000⟩

/-- The value `1e16`. -/
def f1e16 : Float64 := ⟨0x4341c37937e08000⟩

/-- The value `1e16 + 2`, the `float64` after `1e16`. -/
def f1e16_2 : Float64 := ⟨0x4341c37937e08001⟩

/-- The string `"NaN"`. -/
def nanText : GoString := [78, 97, 78]

/-- A tracker with one record of 1e16 in "Food" and two records of 1 in
"Transport". -/
def threeRecords : ExpenseTracker :=
  { Expenses := [⟨1, coffee, f1e16, food, ⟨0⟩⟩, ⟨2, bus, f1, transport, ⟨1⟩⟩,
                 ⟨3, bus, f1, transport, ⟨2⟩⟩],
    NextID := 4, filename := [] }

/-- Standard input as a terminal delivers it, one line at a time: the scanner
takes the next line, and nothing when the input is at its end. -/
def scanLines : List GoString → GoString × List GoString
  | [] => ([], [])
  | line :: rest => (line, rest)

/-- A reader of amounts that knows three texts: `"NaN"` (the NaN), `"Bus"`
(standing for `-1.0`) and `"Food"` (standing for `2.0`), and fails on the
rest. -/
def parseSample (s : GoString) : Option Float64 :=
  if s = nanText then some Float64.nan
  else if s = bus then some fNeg1
  else if s = food then some f2
  else none

/-- A tracker holding the two records of the scenario of the specification
(Coffee, ID 1; Bus, ID 2). -/
def twoRecords : ExpenseTracker :=
  { Expenses := [⟨1, coffee, f4_5, food, ⟨0⟩⟩, ⟨2, bus, f2, transport, ⟨1⟩⟩],
    NextID := 3, filename := [] }

/-! ## Lemmas on `wrapInt` -/

theorem wrapInt_of_range (x : Int) (h1 : minInt ≤ x) (h2 : x ≤ maxInt) : wrapInt x = x := by
  unfold wrapInt
  unfold minInt at h1
  unfold maxInt at h2
  have h : (x + 2 ^ 63) % 2 ^ 64 = x + 2 ^ 63 := Int.emod_eq_of_lt (by omega) (by omega)
  omega

theorem wrapInt_succ_max : wrapInt (maxInt + 1) = minInt := by decide

theorem wrapInt_wrapInt_add (x : Int) (n : Int) : wrapInt (wrapInt x + n) = wrapInt (x + n) := by
  unfold wrapInt
  omega

theorem wrapInt_lower (x : Int) : minInt ≤ wrapInt x := by
  unfold wrapInt minInt
  omega

theorem wrapInt_upper (x : Int) : wrapInt x ≤ maxInt := by
  unfold wrapInt maxInt
  omega

/-! ## Lemmas on `DeleteExpense` -/

theorem deleteScan_none (id : Int) (xs : List Expense) (i : Nat)
    (h : ∀ x ∈ xs, x.ID ≠ id) : deleteScan id i xs = none := by
  induction xs generalizing i with
  | nil => rfl
  | cons x xs ih =>
    have hx : x.ID ≠ id := h x (List.mem_cons_self _ _)
    simp only [deleteScan, hx, if_false]
    exact ih (i + 1) (fun y hy => h y (List.mem_cons_of_mem _ hy))

theorem deleteScan_split (id : Int) (pre : List Expense) (e : Expense) (post : List Expense)
    (i : Nat) (hpre : ∀ x ∈ pre, x.ID ≠ id) (he : e.ID = id) :
    deleteScan id i (pre ++ e :: post) = some (i + pre.length, e) := by
  induction pre generalizing i with
  | nil => simp [deleteScan, he]
  | cons x pre ih =>
    have hx : x.ID ≠ id := hpre x (List.mem_cons_self _ _)
    show deleteScan id i (x :: (pre ++ e :: post)) = some (i + (x :: pre).length, e)
    rw [deleteScan, if_neg hx, ih (i + 1) (fun y hy => hpre y (List.mem_cons_of_mem _ hy))]
    rw [List.length_cons]
    congr 2
    omega

theorem DeleteExpense_absent (et : ExpenseTracker) (id : Int)
    (h : ∀ x ∈ et.Expenses, x.ID ≠ id) :
    DeleteExpense et id = (et, [Out.notFound id]) := by
  unfold DeleteExpense
  rw [deleteScan_none id et.Expenses 0 h]

theorem DeleteExpense_split (pre : List Expense) (e : Expense) (post : List Expense)
    (n : Int) (f : GoString) (id : Int) (hpre : ∀ x ∈ pre, x.ID ≠ id) (he : e.ID = id) :
    DeleteExpense { Expenses := pre ++ e :: post, NextID := n, filename := f } id
      = ({ Expenses := pre ++ post, NextID := n, filename := f },
         [Out.deleted e.Description]) := by
  unfold DeleteExpense
  simp only [deleteScan_split id pre e post 0 hpre he, Nat.zero_add]
  have h1 : (pre ++ e :: post).take pre.length = pre := by simp
  have h2 : (pre ++ e :: post).drop (pre.length + 1) = post := by
    rw [List.drop_append_eq_append_drop]
    simp
  rw [h1, h2]

theorem first_split (id : Int) (xs : List Expense) (h : ∃ x ∈ xs, x.ID = id) :
    ∃ pre e post, xs = pre ++ e :: post ∧ (∀ x ∈ pre, x.ID ≠ id) ∧ e.ID = id := by
  induction xs with
  | nil => simp at h
  | cons x xs ih =>
    by_cases hx : x.ID = id
    · exact ⟨[], x, xs, rfl, by simp, hx⟩
    · have h' : ∃ y ∈ xs, y.ID = id := by
        obtain ⟨y, hy, hyid⟩ := h
        rcases List.mem_cons.1 hy with rfl | hy'
        · exact absurd hyid hx
        · exact ⟨y, hy', hyid⟩
      obtain ⟨pre, e, post, hsplit, hpre, he⟩ := ih h'
      refine ⟨x :: pre, e, post, by rw [hsplit]; rfl, ?_, he⟩
      intro y hy
      rcases List.mem_cons.1 hy with rfl | hy'
      · exact hx
      · exact hpre y hy'

/-! ## Lemmas on sequences of calls -/

theorem wrapInt_idem (x : Int) : wrapInt (wrapInt x) = wrapInt x := by
  have h := wrapInt_wrapInt_add x 0
  simpa using h

theorem DeleteExpense_sublist (et : ExpenseTracker) (id : Int) :
    (DeleteExpense et id).1.Expenses.Sublist et.Expenses
    ∧ (DeleteExpense et id).1.NextID = et.NextID
    ∧ (DeleteExpense et id).1.filename = et.filename := by
  unfold DeleteExpense
  cases h : deleteScan id 0 et.Expenses with
  | none => exact ⟨List.Sublist.refl _, rfl, rfl⟩
  | some p =>
    obtain ⟨i, e⟩ := p
    refine ⟨?_, rfl, rfl⟩
    show (et.Expenses.take i ++ et.Expenses.drop (i + 1)).Sublist et.Expenses
    have h1 : (et.Expenses.drop (i + 1)).Sublist (et.Expenses.drop i) := by
      rw [← List.drop_drop]
      exact List.drop_sublist _ _
    have h2 := List.Sublist.append (List.Sublist.refl (et.Expenses.take i)) h1
    rwa [List.take_append_drop] at h2

theorem Inv_DeleteExpense (et : ExpenseTracker) (id : Int) (h : Inv et) :
    Inv (DeleteExpense et id).1 := by
  obtain ⟨hsub, hnext, _⟩ := DeleteExpense_sublist et id
  refine ⟨?_, ?_⟩
  · exact List.Nodup.sublist (List.Sublist.map _ hsub) h.1
  · intro e he
    rw [hnext]
    exact h.2 e (hsub.subset he)

theorem Inv_AddExpense (et : ExpenseTracker) (description : GoString) (amount : Float64)
    (category : GoString) (now : Time) (h : Inv et) (hlo : minInt ≤ et.NextID)
    (hhi : et.NextID < maxInt) :
    Inv (AddExpense et description amount category now).1 := by
  have hw : wrapInt (et.NextID + 1) = et.NextID + 1 :=
    wrapInt_of_range _ (by omega) (by omega)
  refine ⟨?_, ?_⟩
  · show ((et.Expenses ++ [_]).map Expense.ID).Nodup
    rw [List.map_append, List.nodup_append]
    refine ⟨h.1, by simp, ?_⟩
    intro a ha hb
    simp only [List.map_cons, List.map_nil, List.mem_singleton] at hb
    obtain ⟨e, he, rfl⟩ := List.mem_map.1 ha
    have := h.2 e he
    omega
  · intro e he
    show e.ID < wrapInt (et.NextID + 1)
    rw [hw]
    have he' : e ∈ et.Expenses ++ [_] := he
    rcases List.mem_append.1 he' with he1 | he1
    · have := h.2 e he1
      omega
    · simp only [List.mem_singleton] at he1
      rw [he1]
      show et.NextID < et.NextID + 1
      omega

theorem run_cons (et : ExpenseTracker) (op : Op) (ops : List Op) :
    run et (op :: ops) = run (step et op) ops := rfl

theorem Inv_run (ops : List Op) : ∀ (et : ExpenseTracker), Inv et → minInt ≤ et.NextID →
    et.NextID + (countAdds ops : Int) ≤ maxInt → Inv (run et ops) := by
  induction ops with
  | nil => intro et h _ _; exact h
  | cons op ops ih =>
    intro et h hlo hhi
    rw [run_cons]
    cases op with
    | add d a c t =>
      simp only [countAdds, Nat.cast_add, Nat.cast_one] at hhi
      have hw : wrapInt (et.NextID + 1) = et.NextID + 1 :=
        wrapInt_of_range _ (by omega) (by omega)
      apply ih
      · exact Inv_AddExpense et d a c t h hlo (by omega)
      · show minInt ≤ wrapInt (et.NextID + 1)
        rw [hw]; omega
      · show wrapInt (et.NextID + 1) + (countAdds ops : Int) ≤ maxInt
        rw [hw]; omega
    | delete id =>
      simp only [countAdds] at hhi
      have hn := (DeleteExpense_sublist et id).2.1
      apply ih
      · exact Inv_DeleteExpense et id h
      · show minInt ≤ (DeleteExpense et id).1.NextID
        rw [hn]; exact hlo
      · show (DeleteExpense et id).1.NextID + (countAdds ops : Int) ≤ maxInt
        rw [hn]; exact hhi

theorem createdIDs_eq (ops : List Op) : ∀ (et : ExpenseTracker),
    wrapInt et.NextID = et.NextID →
    createdIDs et ops
      = (List.range (countAdds ops)).map (fun (i : Nat) => wrapInt (et.NextID + (i : Int))) := by
  induction ops with
  | nil => intro et _; rfl
  | cons op ops ih =>
    intro et h
    cases op with
    | add d a c t =>
      have hrec := ih (AddExpense et d a c t).1 (wrapInt_idem (et.NextID + 1))
      have hnext : (AddExpense et d a c t).1.NextID = wrapInt (et.NextID + 1) := rfl
      have hlast : ((AddExpense et d a c t).1.Expenses.getLast?.map Expense.ID).toList
          = [et.NextID] := by
        simp [AddExpense]
      show ((AddExpense et d a c t).1.Expenses.getLast?.map Expense.ID).toList
          ++ createdIDs (AddExpense et d a c t).1 ops = _
      rw [hlast, hrec, hnext]
      simp only [countAdds]
      rw [List.range_succ_eq_map, List.map_cons, List.map_map]
      simp only [Nat.cast_zero, add_zero, h, List.singleton_append, List.cons.injEq, true_and]
      apply List.map_congr_left
      intro i _
      simp only [Function.comp, wrapInt_wrapInt_add, Nat.cast_succ]
      congr 1
      omega
    | delete id =>
      have hn := (DeleteExpense_sublist et id).2.1
      have hrec := ih (DeleteExpense et id).1 (by rw [hn]; exact h)
      show createdIDs (DeleteExpense et id).1 ops = _
      rw [hrec, hn]
      rfl

theorem countAdds_replicate_add (n : Nat) (d : GoString) (a : Float64) (c : GoString)
    (t : Time) : countAdds (List.replicate n (Op.add d a c t)) = n := by
  induction n with
  | zero => rfl
  | succ n ih => rw [List.replicate_succ, countAdds, ih]

theorem fresh_NextID (unmarshal : GoString → ExpenseTracker → ExpenseTracker)
    (filename : GoString) : (NewExpenseTracker unmarshal none filename).NextID = 1 := rfl

theorem wrapInt_one : wrapInt 1 = 1 := by decide

theorem createdIDs_replicate_last (unmarshal : GoString → ExpenseTracker → ExpenseTracker)
    (filename : GoString) (n : Nat) (d : GoString) (a : Float64) (c : GoString) (t : Time) :
    (createdIDs (NewExpenseTracker unmarshal none filename)
        (List.replicate (n + 1) (Op.add d a c t))).getLast?
      = some (wrapInt (1 + (n : Int))) := by
  have h := createdIDs_eq (List.replicate (n + 1) (Op.add d a c t))
    (NewExpenseTracker unmarshal none filename) wrapInt_one
  rw [h, countAdds_replicate_add, fresh_NextID, List.range_succ, List.map_append]
  rw [List.map_cons, List.map_nil, List.getLast?_concat]

theorem createdIDs_length (ops : List Op) (et : ExpenseTracker)
    (h : wrapInt et.NextID = et.NextID) : (createdIDs et ops).length = countAdds ops := by
  rw [createdIDs_eq ops et h, List.length_map, List.length_range]

theorem run_replicate_add (d : GoString) (a : Float64) (c : GoString) (t : Time) (n : Nat) :
    ∀ (et : ExpenseTracker), wrapInt et.NextID = et.NextID →
      (run et (List.replicate n (Op.add d a c t))).NextID = wrapInt (et.NextID + (n : Int))
      ∧ ∀ e ∈ et.Expenses, e ∈ (run et (List.replicate n (Op.add d a c t))).Expenses := by
  induction n with
  | zero =>
    intro et h
    refine ⟨?_, fun e he => he⟩
    show et.NextID = wrapInt (et.NextID + ((0 : Nat) : Int))
    rw [Nat.cast_zero, add_zero, h]
  | succ n ih =>
    intro et h
    rw [List.replicate_succ, run_cons]
    obtain ⟨h1, h2⟩ := ih (step et (Op.add d a c t)) (wrapInt_idem (et.NextID + 1))
    refine ⟨?_, ?_⟩
    · rw [h1]
      show wrapInt (wrapInt (et.NextID + 1) + (n : Int)) = _
      rw [wrapInt_wrapInt_add, Nat.cast_succ]
      congr 1
      omega
    · intro e he
      apply h2
      show e ∈ et.Expenses ++ [_]
      exact List.mem_append_left _ he

/-! ## AddExpense (C2) -/

/-- C2, as stated, fails at the largest `int`: on a tracker whose `NextID` is
`2^63 - 1`, `AddExpense` leaves `NextID` at `-2^63`, which is not the old
value plus one. -/
theorem AddExpense_nextID_at_maxInt :
    (AddExpense { Expenses := [], NextID := 9223372036854775807, filename := [] }
        coffee f4_5 food ⟨0⟩).1.NextID = -9223372036854775808
    ∧ (AddExpense { Expenses := [], NextID := 9223372036854775807, filename := [] }
        coffee f4_5 food ⟨0⟩).1.NextID ≠ 9223372036854775807 + 1 := by
  decide

/-- C2 (amended): for every tracker and every description, amount and category,
`AddExpense` yields the old record list with exactly one record appended at the
end; that record has the old `NextID` as ID and carries the given fields; the
earlier records keep their positions; the file name is kept; the new `NextID`
is the old one incremented in 64-bit arithmetic, which is the old `NextID + 1`
whenever the old `NextID` is below the largest `int`. -/
theorem AddExpense_effect (et : ExpenseTracker) (description : GoString) (amount : Float64)
    (category : GoString) (now : Time) :
    (AddExpense et description amount category now).1.Expenses
        = et.Expenses ++ [{ ID := et.NextID, Description := description, Amount := amount,
                            Category := category, Date := now }]
    ∧ (AddExpense et description amount category now).1.Expenses.length
        = et.Expenses.length + 1
    ∧ (∀ i, i < et.Expenses.length →
        (AddExpense et description amount category now).1.Expenses[i]? = et.Expenses[i]?)
    ∧ (AddExpense et description amount category now).1.filename = et.filename
    ∧ (AddExpense et description amount category now).1.NextID = wrapInt (et.NextID + 1)
    ∧ (minInt ≤ et.NextID → et.NextID < maxInt →
        (AddExpense et description amount category now).1.NextID = et.NextID + 1) := by
  refine ⟨rfl, ?_, ?_, rfl, rfl, ?_⟩
  · simp [AddExpense]
  · intro i hi
    simp only [AddExpense]
    exact List.getElem?_append_left hi
  · intro h1 h2
    show wrapInt (et.NextID + 1) = et.NextID + 1
    apply wrapInt_of_range
    · omega
    · omega

/-- C2 (amended), at the tracker of the scenario: the third record gets ID 3
and `NextID` becomes 4. -/
theorem AddExpense_effect_witness :
    minInt ≤ twoRecords.NextID ∧ twoRecords.NextID < maxInt
    ∧ (AddExpense twoRecords bus f2 other ⟨2⟩).1.NextID = twoRecords.NextID + 1 :=
  ⟨by decide, by decide,
   (AddExpense_effect twoRecords bus f2 other ⟨2⟩).2.2.2.2.2 (by decide) (by decide)⟩

/-! ## DeleteExpense (C3) -/

/-- C3: if exactly one record has the given ID, `DeleteExpense` removes that
record and nothing else (the list splits around it, the other records keep
their order, the length drops by one), keeps `NextID` and reports the deleted
description; if no record has the ID, the tracker is unchanged and "not found"
is reported. -/
theorem DeleteExpense_spec (et : ExpenseTracker) (id : Int) :
    (et.Expenses.countP (fun e => decide (e.ID = id)) = 1 →
      ∃ pre e post, et.Expenses = pre ++ e :: post ∧ e.ID = id
        ∧ (∀ x ∈ pre ++ post, x.ID ≠ id)
        ∧ DeleteExpense et id
            = ({ et with Expenses := pre ++ post }, [Out.deleted e.Description])
        ∧ (DeleteExpense et id).1.Expenses.length + 1 = et.Expenses.length
        ∧ (DeleteExpense et id).1.NextID = et.NextID)
    ∧ (et.Expenses.countP (fun e => decide (e.ID = id)) = 0 →
        DeleteExpense et id = (et, [Out.notFound id])) := by
  constructor
  · intro h
    have hex : ∃ x ∈ et.Expenses, x.ID = id := by
      have hpos : 0 < et.Expenses.countP (fun e => decide (e.ID = id)) := by omega
      obtain ⟨x, hx, hxid⟩ := List.countP_pos_iff.1 hpos
      exact ⟨x, hx, by simpa using hxid⟩
    obtain ⟨pre, e, post, hsplit, hpre, he⟩ := first_split id et.Expenses hex
    have hpre0 : pre.countP (fun e => decide (e.ID = id)) = 0 := by
      rw [List.countP_eq_zero]
      intro x hx
      simpa using hpre x hx
    have hpost0 : post.countP (fun e => decide (e.ID = id)) = 0 := by
      rw [hsplit, List.countP_append, List.countP_cons, hpre0] at h
      simp only [he, decide_True, if_true] at h
      omega
    have hpost : ∀ x ∈ post, x.ID ≠ id := by
      rw [List.countP_eq_zero] at hpost0
      intro x hx
      simpa using hpost0 x hx
    have hdel := DeleteExpense_split pre e post et.NextID et.filename id hpre he
    have het : et = { Expenses := pre ++ e :: post, NextID := et.NextID,
                      filename := et.filename } := by
      cases et
      simp only at hsplit
      simp [hsplit]
    refine ⟨pre, e, post, hsplit, he, ?_, ?_, ?_, ?_⟩
    · intro x hx
      rcases List.mem_append.1 hx with hx | hx
      · exact hpre x hx
      · exact hpost x hx
    · rw [het, hdel]
    · rw [het, hdel]
      simp only [List.length_append, List.length_cons]
      omega
    · rw [het, hdel]
  · intro h
    apply DeleteExpense_absent
    rw [List.countP_eq_zero] at h
    intro x hx
    simpa using h x hx

/-- C3, on the tracker of the scenario: deleting ID 1 (present once) leaves one
record, and deleting ID 7 (absent) changes nothing. -/
theorem DeleteExpense_spec_witness :
    twoRecords.Expenses.countP (fun e => decide (e.ID = 1)) = 1
    ∧ (∃ pre e post, twoRecords.Expenses = pre ++ e :: post ∧ e.ID = 1
        ∧ (∀ x ∈ pre ++ post, x.ID ≠ 1)
        ∧ DeleteExpense twoRecords 1
            = ({ twoRecords with Expenses := pre ++ post }, [Out.deleted e.Description])
        ∧ (DeleteExpense twoRecords 1).1.Expenses.length + 1 = twoRecords.Expenses.length
        ∧ (DeleteExpense twoRecords 1).1.NextID = twoRecords.NextID)
    ∧ twoRecords.Expenses.countP (fun e => decide (e.ID = 7)) = 0
    ∧ DeleteExpense twoRecords 7 = (twoRecords, [Out.notFound 7]) :=
  ⟨by decide, (DeleteExpense_spec twoRecords 1).1 (by decide), by decide,
   (DeleteExpense_spec twoRecords 7).2 (by decide)⟩

/-! ## Assigned IDs (C1) -/

/-- C1, as stated, fails for a sequence of `2^63` calls of `AddExpense` on the
freshly constructed empty tracker: the sequence creates `2^63` records, and the
last one, created by the `2^63`-th call, gets the ID `-2^63` instead of
`2^63`. -/
theorem createdIDs_wrap :
    (createdIDs (NewExpenseTracker (fun _ et => et) none [])
        (List.replicate (2 ^ 63) (Op.add coffee f4_5 food ⟨0⟩))).length = 2 ^ 63
    ∧ (createdIDs (NewExpenseTracker (fun _ et => et) none [])
        (List.replicate (2 ^ 63) (Op.add coffee f4_5 food ⟨0⟩))).getLast?
        = some (-(2 ^ 63 : Int)) := by
  have e : (2 ^ 63 - 1 + 1 : Nat) = 2 ^ 63 := by norm_num
  have hlen := createdIDs_length (List.replicate (2 ^ 63) (Op.add coffee f4_5 food ⟨0⟩))
    (NewExpenseTracker (fun _ et => et) none []) wrapInt_one
  rw [countAdds_replicate_add] at hlen
  have h := createdIDs_replicate_last (fun _ et => et) [] (2 ^ 63 - 1) coffee f4_5 food ⟨0⟩
  rw [e] at h
  have hv : wrapInt (1 + ((2 ^ 63 - 1 : Nat) : Int)) = -(2 ^ 63 : Int) := by decide
  rw [hv] at h
  exact ⟨hlen, h⟩

/-- C1 (amended): starting from the freshly constructed empty tracker, for
every sequence of `AddExpense` and `DeleteExpense` calls that contains fewer
than `2^63` calls of `AddExpense`, the record created by the `k`-th
`AddExpense` call has ID `k` (the created IDs are `1, 2, 3, ...` in order), and
no ID is created twice. -/
theorem createdIDs_fresh (unmarshal : GoString → ExpenseTracker → ExpenseTracker)
    (filename : GoString) (ops : List Op) (h : countAdds ops < 2 ^ 63) :
    createdIDs (NewExpenseTracker unmarshal none filename) ops
      = (List.range (countAdds ops)).map (fun (k : Nat) => (k : Int) + 1)
    ∧ (createdIDs (NewExpenseTracker unmarshal none filename) ops).Nodup := by
  have heq : createdIDs (NewExpenseTracker unmarshal none filename) ops
      = (List.range (countAdds ops)).map (fun (k : Nat) => (k : Int) + 1) := by
    rw [createdIDs_eq ops _ wrapInt_one, fresh_NextID]
    apply List.map_congr_left
    intro i hi
    have hi' : i < countAdds ops := List.mem_range.1 hi
    have hw : wrapInt (1 + (i : Int)) = 1 + (i : Int) := by
      apply wrapInt_of_range
      · unfold minInt; omega
      · unfold maxInt; omega
    rw [hw]
    omega
  refine ⟨heq, ?_⟩
  rw [heq]
  apply List.Nodup.map _ (List.nodup_range _)
  intro a b hab
  simp only at hab
  omega

/-- C1 (amended), on the scenario of the specification: add, add, delete 1,
add creates the IDs 1, 2, 3. -/
theorem createdIDs_fresh_witness :
    countAdds [Op.add coffee f4_5 food ⟨0⟩, Op.add bus f2 transport ⟨1⟩, Op.delete 1,
      Op.add coffee f4_5 food ⟨2⟩] < 2 ^ 63
    ∧ createdIDs (NewExpenseTracker (fun _ et => et) none [])
        [Op.add coffee f4_5 food ⟨0⟩, Op.add bus f2 transport ⟨1⟩, Op.delete 1,
          Op.add coffee f4_5 food ⟨2⟩]
      = [1, 2, 3] :=
  ⟨by decide,
   (createdIDs_fresh (fun _ et => et) []
      [Op.add coffee f4_5 food ⟨0⟩, Op.add bus f2 transport ⟨1⟩, Op.delete 1,
        Op.add coffee f4_5 food ⟨2⟩] (by decide)).1⟩

/-! ## The store invariant (C4) -/

/-- C4, as stated, fails for `AddExpense` at the largest `int`: the empty
tracker with `NextID = 2^63 - 1` satisfies the invariant, and after
`AddExpense` the record has ID `2^63 - 1` while `NextID` is `-2^63`, so the
invariant no longer holds.  Such a state is reached from the freshly
constructed empty tracker by `2^63 - 1` calls of `AddExpense`: the record with
ID 1 is still there and `NextID` is `-2^63`. -/
theorem Inv_broken_at_maxInt :
    Inv { Expenses := [], NextID := 9223372036854775807, filename := [] }
    ∧ ¬ Inv (AddExpense { Expenses := [], NextID := 9223372036854775807, filename := [] }
        coffee f4_5 food ⟨0⟩).1
    ∧ ¬ Inv (run (NewExpenseTracker (fun _ et => et) none [])
        (List.replicate (2 ^ 63 - 1) (Op.add coffee f4_5 food ⟨0⟩))) := by
  refine ⟨by decide, by decide, ?_⟩
  intro hinv
  have e : (2 ^ 63 - 1 : Nat) = 2 ^ 63 - 2 + 1 := by norm_num
  have hn := (run_replicate_add coffee f4_5 food ⟨0⟩ (2 ^ 63 - 1)
    (NewExpenseTracker (fun _ et => et) none []) wrapInt_one).1
  have hv : wrapInt ((NewExpenseTracker (fun _ et => et) none []).NextID
      + ((2 ^ 63 - 1 : Nat) : Int)) = -(2 ^ 63 : Int) := by decide
  rw [hv] at hn
  have hmem : (⟨1, coffee, f4_5, food, ⟨0⟩⟩ : Expense)
      ∈ (run (NewExpenseTracker (fun _ et => et) none [])
          (List.replicate (2 ^ 63 - 1) (Op.add coffee f4_5 food ⟨0⟩))).Expenses := by
    rw [e, List.replicate_succ, run_cons]
    apply (run_replicate_add coffee f4_5 food ⟨0⟩ (2 ^ 63 - 2) _ (by decide)).2
    decide
  have hlt := hinv.2 _ hmem
  rw [hn] at hlt
  exact absurd hlt (by decide)

/-- C4 (amended): the invariant "record IDs pairwise distinct and `NextID`
above every record ID" holds for the freshly constructed empty tracker, is
preserved by every `AddExpense` call made while `NextID` is an `int` below the
largest one, and by every `DeleteExpense` call; hence it holds in every state
reached from the empty tracker by a sequence of these calls in which `NextID`
stays below `2^63` (fewer than `2^63 - 1` calls of `AddExpense`). -/
theorem Inv_reachable :
    (∀ (unmarshal : GoString → ExpenseTracker → ExpenseTracker) (filename : GoString),
      Inv (NewExpenseTracker unmarshal none filename))
    ∧ (∀ (et : ExpenseTracker) (description : GoString) (amount : Float64)
        (category : GoString) (now : Time),
        Inv et → minInt ≤ et.NextID → et.NextID < maxInt →
        Inv (AddExpense et description amount category now).1)
    ∧ (∀ (et : ExpenseTracker) (id : Int), Inv et → Inv (DeleteExpense et id).1)
    ∧ (∀ (unmarshal : GoString → ExpenseTracker → ExpenseTracker) (filename : GoString)
        (ops : List Op), countAdds ops + 1 < 2 ^ 63 →
        Inv (run (NewExpenseTracker unmarshal none filename) ops)) := by
  refine ⟨?_, ?_, ?_, ?_⟩
  · intro unmarshal filename
    exact ⟨List.nodup_nil, fun e he => absurd he (List.not_mem_nil e)⟩
  · intro et d a c t h hlo hhi
    exact Inv_AddExpense et d a c t h hlo hhi
  · intro et id h
    exact Inv_DeleteExpense et id h
  · intro unmarshal filename ops h
    apply Inv_run
    · exact ⟨List.nodup_nil, fun e he => absurd he (List.not_mem_nil e)⟩
    · rw [fresh_NextID]; decide
    · rw [fresh_NextID]
      unfold maxInt
      omega

/-- C4 (amended), on the tracker of the scenario: the invariant holds there
and after one more `AddExpense`, after `DeleteExpense 1`, and after the
sequence add, add, delete 1 from the empty tracker. -/
theorem Inv_reachable_witness :
    Inv twoRecords ∧ minInt ≤ twoRecords.NextID ∧ twoRecords.NextID < maxInt
    ∧ Inv (AddExpense twoRecords coffee f4_5 food ⟨2⟩).1
    ∧ Inv (DeleteExpense twoRecords 1).1
    ∧ countAdds [Op.add coffee f4_5 food ⟨0⟩, Op.add bus f2 transport ⟨1⟩, Op.delete 1] + 1
        < 2 ^ 63
    ∧ Inv (run (NewExpenseTracker (fun _ et => et) none [])
        [Op.add coffee f4_5 food ⟨0⟩, Op.add bus f2 transport ⟨1⟩, Op.delete 1]) :=
  ⟨by decide, by decide, by decide,
   Inv_reachable.2.1 twoRecords coffee f4_5 food ⟨2⟩ (by decide) (by decide) (by decide),
   Inv_reachable.2.2.1 twoRecords 1 (by decide),
   by decide,
   Inv_reachable.2.2.2 (fun _ et => et) []
     [Op.add coffee f4_5 food ⟨0⟩, Op.add bus f2 transport ⟨1⟩, Op.delete 1] (by decide)⟩

/-! ## Validation of the input of "add" (C5) -/

theorem mainAdd_rejects {σ : Type} (scan : σ → GoString × σ)
    (trimSpace : GoString → GoString) (parseFloat : GoString → Option Float64) (now : Time)
    (et : ExpenseTracker) (stdin : σ) :
    (trimSpace (scan stdin).1 = [] →
      (mainAdd scan trimSpace parseFloat now et stdin).1 = et)
    ∧ (parseFloat (trimSpace (scan (scan stdin).2).1) = none →
      (mainAdd scan trimSpace parseFloat now et stdin).1 = et)
    ∧ (∀ amount, parseFloat (trimSpace (scan (scan stdin).2).1) = some amount →
        amount.leZero = true →
        (mainAdd scan trimSpace parseFloat now et stdin).1 = et) := by
  refine ⟨?_, ?_, ?_⟩
  · intro h
    simp [mainAdd, getUserInput, h]
  · intro hp
    by_cases h : trimSpace (scan stdin).1 = []
    · simp [mainAdd, getUserInput, h]
    · simp [mainAdd, getUserInput, h, hp]
  · intro amount hp hle
    by_cases h : trimSpace (scan stdin).1 = []
    · simp [mainAdd, getUserInput, h]
    · simp [mainAdd, getUserInput, h, hp, hle]

/-- C5 (failing input): the check `err != nil || amount <= 0` of `main` lets a
NaN through.  Whenever the description read is not empty and `ParseFloat`
returns a NaN without error for the amount read (as it does for the text
`"NaN"`), `amount <= 0` is false and `amount > 0` is false, and the branch
appends a record with that amount and advances `NextID`; so `amount > 0` does
not hold for every record of the store. -/
theorem mainAdd_accepts_NaN {σ : Type} (scan : σ → GoString × σ)
    (trimSpace : GoString → GoString) (parseFloat : GoString → Option Float64) (now : Time)
    (et : ExpenseTracker) (stdin : σ) (amount : Float64)
    (hd : trimSpace (scan stdin).1 ≠ [])
    (hp : parseFloat (trimSpace (scan (scan stdin).2).1) = some amount)
    (hn : amount.isNaN = true) :
    amount.leZero = false ∧ amount.gtZero = false
    ∧ ∃ category,
        (mainAdd scan trimSpace parseFloat now et stdin).1
          = { Expenses := et.Expenses
                ++ [⟨et.NextID, trimSpace (scan stdin).1, amount, category, now⟩],
              NextID := wrapInt (et.NextID + 1), filename := et.filename } := by
  have hle : amount.leZero = false := by simp [Float64.leZero, hn]
  have hgt : amount.gtZero = false := by simp [Float64.gtZero, hn]
  refine ⟨hle, hgt,
    (if trimSpace (scan (scan (scan stdin).2).2).1 = [] then other
     else trimSpace (scan (scan (scan stdin).2).2).1), ?_⟩
  simp [mainAdd, getUserInput, hd, hp, hle, AddExpense]

/-- C5 (failing input), on a terminal session: on the freshly constructed
empty tracker, the description `"Coffee"`, the amount `"NaN"` and the category
`"Food"` leave a record with ID 1 whose amount is the NaN, and `NextID = 2`. -/
theorem mainAdd_accepts_NaN_witness :
    (fun s => s) (scanLines [coffee, nanText, food]).1 ≠ []
    ∧ parseSample ((fun s => s) (scanLines (scanLines [coffee, nanText, food]).2).1)
        = some Float64.nan
    ∧ Float64.nan.isNaN = true
    ∧ Float64.nan.leZero = false ∧ Float64.nan.gtZero = false
    ∧ (mainAdd scanLines (fun s => s) parseSample ⟨5⟩
          (NewExpenseTracker (fun _ et => et) none []) [coffee, nanText, food]).1
        = { Expenses := [⟨1, coffee, Float64.nan, food, ⟨5⟩⟩], NextID := 2, filename := [] } :=
  ⟨by decide, by decide, by decide,
   (mainAdd_accepts_NaN scanLines (fun s => s) parseSample ⟨5⟩
      (NewExpenseTracker (fun _ et => et) none []) [coffee, nanText, food] Float64.nan
      (by decide) (by decide) (by decide)).1,
   (mainAdd_accepts_NaN scanLines (fun s => s) parseSample ⟨5⟩
      (NewExpenseTracker (fun _ et => et) none []) [coffee, nanText, food] Float64.nan
      (by decide) (by decide) (by decide)).2.1,
   by decide⟩

/-! ## truncateString (C8) -/

theorem truncateString_short (s : GoString) (h : s.length ≤ 24) :
    truncateString s 24 = some s := by
  have h' : (s.length : Int) ≤ 24 := by exact_mod_cast h
  simp [truncateString, h']

theorem truncateString_long (s : GoString) (h : 24 < s.length) :
    truncateString s 24 = some (s.take 21 ++ dots) := by
  have h' : ¬ (s.length : Int) ≤ 24 := by
    intro hc
    have : s.length ≤ 24 := by exact_mod_cast hc
    omega
  unfold truncateString
  rw [if_neg h', if_neg (by decide)]
  rfl

theorem utf8_ascii (cs : List Char) (h : ∀ c ∈ cs, c.val ≤ 127) :
    utf8 cs = cs.map (fun c => c.val.toUInt8) := by
  induction cs with
  | nil => rfl
  | cons c cs ih =>
    have hc : c.val ≤ 127 := h c (List.mem_cons_self _ _)
    have hrest : utf8 cs = cs.map (fun c => c.val.toUInt8) :=
      ih (fun x hx => h x (List.mem_cons_of_mem _ hx))
    have hhead : String.utf8EncodeChar c = [c.val.toUInt8] := by
      simp [String.utf8EncodeChar, hc]
    show String.utf8EncodeChar c ++ utf8 cs = _
    rw [hhead, hrest]
    rfl

theorem utf8_ascii_length (cs : List Char) (h : ∀ c ∈ cs, c.val ≤ 127) :
    (utf8 cs).length = cs.length := by
  rw [utf8_ascii cs h, List.length_map]

theorem utf8_ascii_take (cs : List Char) (h : ∀ c ∈ cs, c.val ≤ 127) (n : Nat) :
    (utf8 cs).take n = utf8 (cs.take n) := by
  rw [utf8_ascii cs h, utf8_ascii (cs.take n) (fun c hc => h c (List.mem_of_mem_take hc)),
    List.map_take]

/-- C8, as stated, fails for a description with characters of more than one
byte: the text of 13 characters `é` (26 bytes) has length at most 24, yet
`truncateString(s, 24)` does not return it unchanged; it returns the first 21
bytes, which end inside the 11th character, followed by `"..."`. -/
theorem truncateString_cuts_character :
    (List.replicate 13 'é').length ≤ 24
    ∧ truncateString (utf8 (List.replicate 13 'é')) 24
        ≠ some (utf8 (List.replicate 13 'é'))
    ∧ truncateString (utf8 (List.replicate 13 'é')) 24
        = some (utf8 (List.replicate 10 'é') ++ [0xC3] ++ dots) := by
  decide

/-- C8 (amended): `truncateString(s, 24)` works on the bytes of `s`: for every
string it returns `s` unchanged when `s` has at most 24 bytes, and otherwise
the first 21 bytes of `s` followed by `"..."`, a result of exactly 24 bytes.
So for every description made of one-byte (ASCII) characters it returns the
description unchanged when its length is at most 24 characters, and otherwise
its first 21 characters followed by `"..."`, a result of exactly 24
characters. -/
theorem truncateString_24 :
    (∀ s : GoString,
      (s.length ≤ 24 → truncateString s 24 = some s)
      ∧ (24 < s.length →
          truncateString s 24 = some (s.take 21 ++ dots)
          ∧ (s.take 21 ++ dots).length = 24))
    ∧ (∀ cs : List Char, (∀ c ∈ cs, c.val ≤ 127) →
      (cs.length ≤ 24 → truncateString (utf8 cs) 24 = some (utf8 cs))
      ∧ (24 < cs.length →
          truncateString (utf8 cs) 24 = some (utf8 (cs.take 21 ++ ['.', '.', '.']))
          ∧ (cs.take 21 ++ ['.', '.', '.']).length = 24)) := by
  constructor
  · intro s
    refine ⟨truncateString_short s, fun h => ⟨truncateString_long s h, ?_⟩⟩
    rw [List.length_append, List.length_take]
    simp only [dots, List.length_cons, List.length_nil]
    omega
  · intro cs hcs
    have hlen := utf8_ascii_length cs hcs
    constructor
    · intro h
      exact truncateString_short (utf8 cs) (by omega)
    · intro h
      constructor
      · rw [truncateString_long (utf8 cs) (by omega), utf8_ascii_take cs hcs 21]
        show some (utf8 (cs.take 21) ++ dots) = some (utf8 (cs.take 21 ++ ['.', '.', '.']))
        have happ : utf8 (cs.take 21 ++ ['.', '.', '.'])
            = utf8 (cs.take 21) ++ utf8 ['.', '.', '.'] := by
          simp [utf8, List.flatMap_append]
        have hdots : utf8 ['.', '.', '.'] = dots := by decide
        rw [happ, hdots]
      · rw [List.length_append, List.length_take]
        simp only [List.length_cons, List.length_nil]
        omega

/-- C8 (amended), on `"Bus"` (3 bytes, unchanged), on a string of 26 bytes
(cut to 21 bytes and `"..."`), and on the texts `Bus` and a run of 26 letters
`a` (cut to 21 letters and `"..."`). -/
theorem truncateString_24_witness :
    bus.length ≤ 24 ∧ truncateString bus 24 = some bus
    ∧ 24 < (coffee ++ transport ++ coffee ++ food ++ [33]).length
    ∧ truncateString (coffee ++ transport ++ coffee ++ food ++ [33]) 24
        = some ((coffee ++ transport ++ coffee ++ food ++ [33]).take 21 ++ dots)
    ∧ (∀ c ∈ ['B', 'u', 's'], c.val ≤ 127) ∧ ['B', 'u', 's'].length ≤ 24
    ∧ truncateString (utf8 ['B', 'u', 's']) 24 = some (utf8 ['B', 'u', 's'])
    ∧ (∀ c ∈ List.replicate 26 'a', c.val ≤ 127) ∧ 24 < (List.replicate 26 'a').length
    ∧ truncateString (utf8 (List.replicate 26 'a')) 24
        = some (utf8 ((List.replicate 26 'a').take 21 ++ ['.', '.', '.'])) :=
  ⟨by decide, (truncateString_24.1 bus).1 (by decide), by decide,
   ((truncateString_24.1 (coffee ++ transport ++ coffee ++ food ++ [33])).2 (by decide)).1,
   by decide, by decide,
   (truncateString_24.2 ['B', 'u', 's'] (by decide)).1 (by decide),
   by decide, by decide,
   ((truncateString_24.2 (List.replicate 26 'a') (by decide)).2 (by decide)).1⟩

/-! ## ListExpenses and GetExpensesByCategory (C9, C10) -/

theorem truncateString_shown (s : GoString) :
    truncateString s 24 = some (shownDescription s) := by
  unfold shownDescription
  by_cases h : s.length ≤ 24
  · rw [if_pos h]
    exact truncateString_short s h
  · rw [if_neg h]
    exact truncateString_long s (by omega)

theorem listLoop_eq (fadd : Float64 → Float64 → Float64) (es : List Expense) :
    ∀ acc : List Out × Float64,
      listLoop fadd es acc
        = some (acc.1 ++ es.map tableRow, (es.map Expense.Amount).foldl fadd acc.2) := by
  induction es with
  | nil => intro acc; simp [listLoop]
  | cons e es ih =>
    intro acc
    rw [listLoop, truncateString_shown]
    simp only
    rw [ih]
    simp [tableRow]

theorem ListExpenses_cons (fadd : Float64 → Float64 → Float64) (e : Expense)
    (es : List Expense) (n : Int) (f : GoString) :
    ListExpenses fadd { Expenses := e :: es, NextID := n, filename := f }
      = some ({ Expenses := e :: es, NextID := n, filename := f },
          [Out.listTitle, Out.listHeader, Out.listRule] ++ (e :: es).map tableRow
            ++ [Out.total ((((e :: es).map Expense.Amount).foldl fadd Float64.zero))]) := by
  unfold ListExpenses
  rw [if_neg (by simp)]
  simp only [listLoop_eq]

/-- C9: for every non-empty tracker, `ListExpenses` returns normally, leaves
the tracker as it is, and prints the three heading lines, then one row per
record in list order, then the total, which is the sum of the amounts of all
records (accumulated from `0.0` in list order). -/
theorem ListExpenses_nonempty (fadd : Float64 → Float64 → Float64) (e : Expense)
    (es : List Expense) (n : Int) (f : GoString) :
    ListExpenses fadd { Expenses := e :: es, NextID := n, filename := f }
      = some ({ Expenses := e :: es, NextID := n, filename := f },
          [Out.listTitle, Out.listHeader, Out.listRule] ++ (e :: es).map tableRow
            ++ [Out.total (sumAmounts fadd (e :: es))]) := by
  rw [ListExpenses_cons]
  rfl

/-- C10: for the empty tracker, `ListExpenses` and `GetExpensesByCategory`
each print the single notice "No expenses recorded yet." and nothing else; and
for every tracker, both return normally and leave the tracker (record list,
`NextID`, file name) as it is. -/
theorem empty_notice_and_frame :
    (∀ (fadd : Float64 → Float64 → Float64) (n : Int) (f : GoString),
      ListExpenses fadd { Expenses := [], NextID := n, filename := f }
        = some ({ Expenses := [], NextID := n, filename := f }, [Out.noExpenses]))
    ∧ (∀ (fadd : Float64 → Float64 → Float64)
        (order : List (GoString × Float64) → List (GoString × Float64))
        (n : Int) (f : GoString),
      GetExpensesByCategory fadd order { Expenses := [], NextID := n, filename := f }
        = ({ Expenses := [], NextID := n, filename := f }, [Out.noExpenses]))
    ∧ (∀ (fadd : Float64 → Float64 → Float64) (et : ExpenseTracker),
        ∃ out, ListExpenses fadd et = some (et, out))
    ∧ (∀ (fadd : Float64 → Float64 → Float64)
        (order : List (GoString × Float64) → List (GoString × Float64))
        (et : ExpenseTracker), (GetExpensesByCategory fadd order et).1 = et) := by
  refine ⟨fun _ _ _ => rfl, fun _ _ _ _ => rfl, ?_, ?_⟩
  · intro fadd et
    obtain ⟨es, n, f⟩ := et
    cases es with
    | nil => exact ⟨_, rfl⟩
    | cons e es => exact ⟨_, ListExpenses_cons fadd e es n f⟩
  · intro fadd order et
    unfold GetExpensesByCategory
    split <;> rfl

/-! ## Totals per category (C7) -/

theorem lookupTotal_addToCategory (fadd : Float64 → Float64 → Float64) (k : GoString)
    (v : Float64) (c : GoString) (m : List (GoString × Float64)) :
    lookupTotal c (addToCategory fadd k v m)
      = if k = c then some (fadd ((lookupTotal k m).getD Float64.zero) v)
        else lookupTotal c m := by
  induction m with
  | nil => simp [addToCategory, lookupTotal]
  | cons p m ih =>
    obtain ⟨k', t⟩ := p
    by_cases h1 : k' = k
    · subst h1
      by_cases h2 : k' = c
      · simp [addToCategory, lookupTotal, h2]
      · simp [addToCategory, lookupTotal, h2]
    · by_cases h2 : k' = c
      · subst h2
        have h3 : ¬ k = k' := fun h => h1 h.symm
        simp [addToCategory, lookupTotal, h1, h3]
      · simp [addToCategory, lookupTotal, h1, h2, ih]

theorem keys_addToCategory (fadd : Float64 → Float64 → Float64) (k : GoString)
    (v : Float64) (m : List (GoString × Float64)) :
    (addToCategory fadd k v m).map Prod.fst
      = if k ∈ m.map Prod.fst then m.map Prod.fst else m.map Prod.fst ++ [k] := by
  induction m with
  | nil => simp [addToCategory]
  | cons p m ih =>
    obtain ⟨k', t⟩ := p
    by_cases h1 : k' = k
    · subst h1
      simp [addToCategory]
    · have h3 : ¬ k = k' := fun h => h1 h.symm
      by_cases h4 : k ∈ m.map Prod.fst
      · simp only [addToCategory, h1, if_false, List.map_cons, ih, h4, if_true,
          List.mem_cons, or_true]
      · simp only [addToCategory, h1, if_false, List.map_cons, ih, h4, List.mem_cons, h3,
          or_self, List.cons_append]

theorem categoryTotals_concat (fadd : Float64 → Float64 → Float64) (es : List Expense)
    (e : Expense) :
    categoryTotals fadd (es ++ [e])
      = addToCategory fadd e.Category e.Amount (categoryTotals fadd es) := by
  simp [categoryTotals, List.foldl_append]

theorem categoryTotals_keys_nodup (fadd : Float64 → Float64 → Float64) (es : List Expense) :
    ((categoryTotals fadd es).map Prod.fst).Nodup := by
  induction es using List.reverseRecOn with
  | nil => exact List.nodup_nil
  | append_singleton es e ih =>
    rw [categoryTotals_concat, keys_addToCategory]
    split
    · exact ih
    · rename_i h
      rw [List.nodup_append]
      refine ⟨ih, List.nodup_singleton _, ?_⟩
      intro a ha hb
      rw [List.mem_singleton] at hb
      subst hb
      exact h ha

theorem lookupTotal_categoryTotals (fadd : Float64 → Float64 → Float64) (es : List Expense)
    (c : GoString) :
    lookupTotal c (categoryTotals fadd es)
      = if es.filter (fun x => decide (x.Category = c)) = [] then none
        else some (sumAmounts fadd (es.filter (fun x => decide (x.Category = c)))) := by
  induction es using List.reverseRecOn with
  | nil => simp [categoryTotals, lookupTotal]
  | append_singleton es e ih =>
    rw [categoryTotals_concat, lookupTotal_addToCategory, List.filter_append]
    by_cases hc : e.Category = c
    · subst hc
      rw [if_pos rfl, ih]
      have hf : List.filter (fun x => decide (x.Category = e.Category)) [e] = [e] := by
        simp
      rw [hf]
      by_cases hempty : es.filter (fun x => decide (x.Category = e.Category)) = []
      · simp [hempty, sumAmounts]
      · simp [hempty, sumAmounts, List.foldl_append]
    · have hf : List.filter (fun x => decide (x.Category = c)) [e] = [] := by
        simp [hc]
      rw [if_neg hc, ih, hf, List.append_nil]

theorem mem_iff_lookupTotal (m : List (GoString × Float64))
    (h : (m.map Prod.fst).Nodup) (c : GoString) (t : Float64) :
    (c, t) ∈ m ↔ lookupTotal c m = some t := by
  induction m with
  | nil => simp [lookupTotal]
  | cons p m ih =>
    obtain ⟨k, t'⟩ := p
    rw [List.map_cons, List.nodup_cons] at h
    obtain ⟨hk, hm⟩ := h
    by_cases hkc : k = c
    · subst hkc
      have hnot : (k, t) ∉ m := fun hmem =>
        hk (List.mem_map.2 ⟨(k, t), hmem, rfl⟩)
      simp only [List.mem_cons, Prod.mk.injEq, true_and, hnot, or_false, lookupTotal,
        if_true, Option.some.injEq]
      exact eq_comm
    · have hne : ¬ c = k := fun h => hkc h.symm
      simp only [List.mem_cons, Prod.mk.injEq, hne, false_and, false_or, lookupTotal, hkc,
        if_false]
      exact ih hm

/-- C7, as stated, fails with `float64` addition: for the tracker with one
record of 1e16 in "Food" and two records of 1 in "Transport", the sum of all
amounts in list order is 1e16 (adding 1 to 1e16 rounds back to 1e16, twice),
while the two category totals, 1e16 and 2, add up to 1e16 + 2, in either order
of the category lines. -/
theorem category_totals_sum_differs :
    sumAmounts Float64.add threeRecords.Expenses = f1e16
    ∧ sumTotals Float64.add (GetExpensesByCategory Float64.add (fun m => m) threeRecords).2
        = f1e16_2
    ∧ sumTotals Float64.add (GetExpensesByCategory Float64.add List.reverse threeRecords).2
        = f1e16_2
    ∧ f1e16_2 ≠ f1e16 := by
  decide!

/-- C7 (amended): for every non-empty tracker, `GetExpensesByCategory` returns
the tracker as it is and prints, after the title, one line per entry of its
map of totals (in the order the runtime ranges over the map); the map has
exactly one entry per distinct category value of the records, and the total
of a category is the sum of the amounts of the records of that category,
accumulated from `0.0` in list order with the program's `float64` addition.
Nothing is said of the sum of these totals. -/
theorem GetExpensesByCategory_totals (fadd : Float64 → Float64 → Float64)
    (order : List (GoString × Float64) → List (GoString × Float64))
    (e : Expense) (es : List Expense) (n : Int) (f : GoString) :
    GetExpensesByCategory fadd order { Expenses := e :: es, NextID := n, filename := f }
      = ({ Expenses := e :: es, NextID := n, filename := f },
         Out.categoryTitle
           :: (order (categoryTotals fadd (e :: es))).map
                (fun kv => Out.categoryLine kv.1 kv.2))
    ∧ ((categoryTotals fadd (e :: es)).map Prod.fst).Nodup
    ∧ ∀ c t, (c, t) ∈ categoryTotals fadd (e :: es) ↔
        ((∃ x ∈ e :: es, x.Category = c)
         ∧ t = sumAmounts fadd ((e :: es).filter (fun x => decide (x.Category = c)))) := by
  refine ⟨rfl, categoryTotals_keys_nodup fadd (e :: es), ?_⟩
  intro c t
  rw [mem_iff_lookupTotal _ (categoryTotals_keys_nodup fadd (e :: es)),
    lookupTotal_categoryTotals]
  by_cases hempty : (e :: es).filter (fun x => decide (x.Category = c)) = []
  · rw [if_pos hempty]
    constructor
    · intro h
      exact absurd h (by simp)
    · rintro ⟨⟨x, hx, hxc⟩, _⟩
      have hmem : x ∈ (e :: es).filter (fun x => decide (x.Category = c)) :=
        List.mem_filter.2 ⟨hx, by simpa using hxc⟩
      rw [hempty] at hmem
      exact absurd hmem (List.not_mem_nil x)
  · rw [if_neg hempty]
    obtain ⟨x, hx⟩ := List.exists_mem_of_ne_nil _ hempty
    have hx' := List.mem_filter.1 hx
    constructor
    · intro h
      exact ⟨⟨x, hx'.1, by simpa using hx'.2⟩, (Option.some.inj h).symm⟩
    · rintro ⟨_, ht⟩
      rw [ht]

end ExpenseCLI
